import Mathlib

/-!
Verification of the ezex-io/gopkg retry executor and scheduler core.

Durations are modelled in whole nanoseconds as `Nat` (Go's `time.Duration` is an
integer nanosecond count; all values reached by the claims are nonnegative).
The float multiplier of the exponential backoff is modelled as an exact `ℚ`;
Go's float-to-Duration conversion truncates toward zero, which on nonnegative
values coincides with the integer floor used here.

Stateful Go code (context polling, `select` races, goroutine callbacks) is
embedded as explicit oracle functions: `doneBefore i` tells whether the
context's done channel is observed closed at the pre-attempt poll of loop
iteration `i`, and `cancelWins i` tells whether cancellation wins the
backoff-wait `select` following iteration `i`.  Each loop is translated
iteration by iteration from the Go source into a fuel-indexed recursion whose
fuel is the number of loop iterations still permitted by the loop condition.
-/

/-- Result of a retry loop, mirroring the Go error returned:
`success` for a nil error, `failed e` for a task error `e`,
`cancelled` for `ctx.Err()`. -/
inductive Outcome (E : Type) where
  | success : Outcome E
  | failed : E → Outcome E
  | cancelled : Outcome E
deriving DecidableEq, Repr

/-- Observable trace of one run of `retryLoop` (src/util/retry/retry.go):
how many times the task was invoked, the backoff waits actually performed to
completion (in order), the `OnRetry` callback invocations as
(attempt argument, error argument, nextWait argument) triples, and the
returned error. -/
structure LoopTrace (E : Type) where
  calls : Nat
  waits : List Nat
  onRetryEvents : List (Nat × E × Nat)
  result : Outcome E
deriving DecidableEq, Repr

/-- `FixedBackoff` from src/util/retry/retry.go: 0 at attempt 0, else the
fixed duration. -/
def fixedBackoff (duration : Nat) (attempt : Nat) : Nat :=
  if attempt = 0 then 0 else duration

/-- `LinearBackoff` from src/util/retry/retry.go: 0 at attempt 0, else
`attempt * increment`. -/
def linearBackoff (increment : Nat) (attempt : Nat) : Nat :=
  if attempt = 0 then 0 else attempt * increment

/-- `NoBackoff` from src/util/retry/retry.go: always 0. -/
def noBackoff (attempt : Nat) : Nat := 0

/-- The raw exponential delay of `ExponentialBackoff`
(src/util/retry/retry.go line 94): `initialDelay * multiplier ^ (attempt-1)`,
as an exact rational. -/
def expRawDelay (initialDelay : Nat) (multiplier : ℚ) (attempt : Nat) : ℚ :=
  (initialDelay : ℚ) * multiplier ^ (attempt - 1)

/-- The pre-jitter delay of `ExponentialBackoff` (lines 94-99): the raw
delay truncated to whole nanoseconds, then capped at `maxDelay`. -/
def expDelay (initialDelay : Nat) (multiplier : ℚ) (maxDelay : Nat) (attempt : Nat) : Nat :=
  let d := Int.toNat ⌊expRawDelay initialDelay multiplier attempt⌋
  if d > maxDelay then maxDelay else d

/-- `ExponentialBackoff` from src/util/retry/retry.go (lines 87-109).
`randVal` models the nonnegative value drawn from `randSource.Int63()`.
`none` models the runtime fault of `randVal % 0` (Go panics with an integer
division by zero when the computed delay is 0); otherwise the strategy
returns `delay/2 + jitter/2` with `jitter = randVal % delay`. -/
def exponentialBackoff (initialDelay : Nat) (multiplier : ℚ) (maxDelay : Nat)
    (randVal : Nat) (attempt : Nat) : Option Nat :=
  if attempt = 0 then
    some 0
  else
    let delay := expDelay initialDelay multiplier maxDelay attempt
    if delay = 0 then none
    else some (delay / 2 + (randVal % delay) / 2)

/-- One Go error value as seen by `RetryableError`
(src/util/retry/retry.go lines 220-236): whether the dynamic type exposes a
`Temporary() bool` method and with what result, and likewise `Timeout() bool`.
`none` in a field means the method is absent. -/
structure GoError where
  temporary : Option Bool
  timeout : Option Bool
deriving DecidableEq, Repr

/-- `RetryableError` from src/util/retry/retry.go (lines 220-236).
A nil error (`none`) is not retryable.  The `Temporary()` type assertion is
checked first and, when the method exists, its result is returned without
consulting `Timeout()`; only errors lacking `Temporary()` fall through to the
`Timeout()` check; everything else is not retryable. -/
def retryableError (err : Option GoError) : Bool :=
  match err with
  | none => false
  | some e =>
    match e.temporary with
    | some b => b
    | none =>
      match e.timeout with
      | some b => b
      | none => false

/-- The body of `retryLoop` (src/util/retry/retry.go lines 252-291), one
constructor case per remaining loop iteration.  Arguments: `k` is
`config.MaxAttempts`, `strategy` is `config.BackoffStrategy`, `hasOnRetry`
tells whether `config.OnRetry` is non-nil, `shouldRetry` is the optional
retryability predicate (`none` models a nil predicate), `task` gives the
error of the i-th task invocation (0-based; `none` = nil error),
`doneBefore`/`cancelWins` are the context oracles.  `fuel` is the number of
iterations the loop condition `attempt < k` still allows (the caller keeps
`fuel + attempt = k`); `lastErr` is the `lastErr` variable. -/
def retryLoopAux {E : Type} (k : Nat) (strategy : Nat → Nat) (hasOnRetry : Bool)
    (shouldRetry : Option (E → Bool)) (task : Nat → Option E)
    (doneBefore cancelWins : Nat → Bool) :
    Nat → Nat → Option E → LoopTrace E
  | 0, _, lastErr =>
    ⟨0, [], [], match lastErr with | none => Outcome.success | some e => Outcome.failed e⟩
  | fuel + 1, attempt, _ =>
    if doneBefore attempt then
      ⟨0, [], [], Outcome.cancelled⟩
    else
      match task attempt with
      | none => ⟨1, [], [], Outcome.success⟩
      | some e =>
        if shouldRetry.elim false (fun p => !(p e)) then
          ⟨1, [], [], Outcome.failed e⟩
        else if attempt = k - 1 then
          ⟨1, [], [], Outcome.failed e⟩
        else
          let w := strategy attempt
          let evs := if hasOnRetry then [(attempt + 1, e, strategy (attempt + 1))] else []
          if cancelWins attempt then
            ⟨1, [], evs, Outcome.cancelled⟩
          else
            let rest := retryLoopAux k strategy hasOnRetry shouldRetry task
              doneBefore cancelWins fuel (attempt + 1) (some e)
            ⟨rest.calls + 1, w :: rest.waits, evs ++ rest.onRetryEvents, rest.result⟩

/-- `retryLoop` from src/util/retry/retry.go: starts at attempt 0 with a nil
`lastErr` and `MaxAttempts` iterations allowed. -/
def retryLoop {E : Type} (k : Nat) (strategy : Nat → Nat) (hasOnRetry : Bool)
    (shouldRetry : Option (E → Bool)) (task : Nat → Option E)
    (doneBefore cancelWins : Nat → Bool) : LoopTrace E :=
  retryLoopAux k strategy hasOnRetry shouldRetry task doneBefore cancelWins k 0 none

/-- `ExecuteSync` from src/util/retry/retry.go (lines 141-152): runs
`retryLoop` with a nil retryability predicate. -/
def executeSync {E : Type} (k : Nat) (strategy : Nat → Nat) (hasOnRetry : Bool)
    (task : Nat → Option E) (doneBefore cancelWins : Nat → Bool) : LoopTrace E :=
  retryLoop k strategy hasOnRetry none task doneBefore cancelWins

/-- `ExecuteSyncWithPredicate` from src/util/retry/retry.go (lines 196-212):
a nil predicate argument is replaced by `RetryableError`, then `retryLoop`
runs with that predicate (applied inside the loop to the non-nil task error). -/
def executeSyncWithPredicate (k : Nat) (strategy : Nat → Nat) (hasOnRetry : Bool)
    (shouldRetry : Option (GoError → Bool)) (task : Nat → Option GoError)
    (doneBefore cancelWins : Nat → Bool) : LoopTrace GoError :=
  retryLoop k strategy hasOnRetry
    (some (shouldRetry.getD (fun e => retryableError (some e))))
    task doneBefore cancelWins

/-- Callback activity of one `ExecuteAsync` run: invocations of the caller's
`onSuccess` and `onFailure`, and whether a nil function value was called
(a Go runtime fault). -/
structure AsyncTrace where
  successCalls : Nat
  failureCalls : Nat
  nilCallFault : Bool
deriving DecidableEq, Repr

/-- `ExecuteAsync` from src/util/retry/retry.go (lines 157-193): the
goroutine runs `retryLoop` (nil predicate), then calls the once-guarded
`callSuccess` on a nil error and the once-guarded `callFailure` otherwise;
each guard invokes the caller's callback only when it is non-nil. -/
def executeAsync {E : Type} (k : Nat) (strategy : Nat → Nat) (hasOnRetry : Bool)
    (task : Nat → Option E) (doneBefore cancelWins : Nat → Bool)
    (hasOnSuccess hasOnFailure : Bool) : AsyncTrace :=
  match (retryLoop k strategy hasOnRetry none task doneBefore cancelWins).result with
  | Outcome.success => ⟨if hasOnSuccess then 1 else 0, 0, false⟩
  | Outcome.failed _ => ⟨0, if hasOnFailure then 1 else 0, false⟩
  | Outcome.cancelled => ⟨0, if hasOnFailure then 1 else 0, false⟩

/-- The loop of `ExecuteSyncT` (src/util/retry/sync.go lines 51-82).
`maxRetries` is the configured attempt budget, `task i` the error of the
i-th invocation, `cancelWins i` whether cancellation wins the delay `select`
after iteration `i`.  Returns (number of task invocations, outcome).
`fuel` again counts the iterations allowed by `attempt < maxRetries`. -/
def executeSyncTAux {E : Type} (maxRetries : Nat) (task : Nat → Option E)
    (cancelWins : Nat → Bool) :
    Nat → Nat → Option E → Nat × Outcome E
  | 0, _, lastErr =>
    (0, match lastErr with | none => Outcome.success | some e => Outcome.failed e)
  | fuel + 1, attempt, _ =>
    match task attempt with
    | none => (1, Outcome.success)
    | some e =>
      if attempt < maxRetries - 1 then
        if cancelWins attempt then
          (1, Outcome.cancelled)
        else
          let rest := executeSyncTAux maxRetries task cancelWins fuel (attempt + 1) (some e)
          (rest.1 + 1, rest.2)
      else
        let rest := executeSyncTAux maxRetries task cancelWins fuel (attempt + 1) (some e)
        (rest.1 + 1, rest.2)

/-- `ExecuteSyncT` from src/util/retry/sync.go: loop from attempt 0 with a
nil last error. -/
def executeSyncT {E : Type} (maxRetries : Nat) (task : Nat → Option E)
    (cancelWins : Nat → Bool) : Nat × Outcome E :=
  executeSyncTAux maxRetries task cancelWins maxRetries 0 none

/-- `ExecuteAsyncT` from src/util/retry/async.go (lines 60-102): the same
loop as `ExecuteSyncT`, with `onSuccess` invoked (nil-checked) on success,
`onFailure` invoked (nil-checked) on cancellation during a wait, and
`onFailure(err)` invoked WITHOUT a nil check on the exhausted-retries path
(line 100) — a nil `onFailure` faults there. -/
def executeAsyncT {E : Type} (maxRetries : Nat) (task : Nat → Option E)
    (cancelWins : Nat → Bool) (hasOnSuccess hasOnFailure : Bool) : AsyncTrace :=
  match (executeSyncTAux maxRetries task cancelWins maxRetries 0 none).2 with
  | Outcome.success => ⟨if hasOnSuccess then 1 else 0, 0, false⟩
  | Outcome.cancelled => ⟨0, if hasOnFailure then 1 else 0, false⟩
  | Outcome.failed _ => ⟨0, if hasOnFailure then 1 else 0, !hasOnFailure⟩

/-- `ExecuteAsync` from src/util/retry/async.go (lines 37-55): wraps the
caller's possibly-nil callbacks in always-non-nil closures that nil-check
before invoking, and delegates to `ExecuteAsyncT`. -/
def executeAsyncWrapped {E : Type} (maxRetries : Nat) (task : Nat → Option E)
    (cancelWins : Nat → Bool) (hasOnSuccess hasOnFailure : Bool) : AsyncTrace :=
  let t := executeAsyncT maxRetries task cancelWins true true
  ⟨if hasOnSuccess then t.successCalls else 0,
   if hasOnFailure then t.failureCalls else 0,
   t.nilCallFault⟩

/-- Observable trace of one `runJobs` tick: how many job goroutines were
launched, which job errors were logged (in registration order in this
sequential embedding), and how often `onSuccess` was invoked. -/
structure TickTrace (E : Type) where
  launched : Nat
  logged : List E
  successCalls : Nat
deriving DecidableEq, Repr

/-- `runJobs` from src/scheduler/scheduler.go (lines 52-72): every job is
launched via `group.Go`; each failing goroutine logs its own error and
returns it; `group.Wait()` yields some job error exactly when a job failed
(modelled by the first error in registration order); `onSuccess` runs when
`Wait` returned nil and the callback is set.  `jobs` lists each registered
job's `Run` outcome for this tick (`none` = success). -/
def runJobs {E : Type} (jobs : List (Option E)) (hasOnSuccess : Bool) : TickTrace E :=
  let waitErr : Option E := jobs.findSome? (fun r => r)
  { launched := jobs.length
    logged := jobs.filterMap (fun r => r)
    successCalls := if waitErr.isNone && hasOnSuccess then 1 else 0 }

/-- `runJobs` from src/util/scheduler/scheduler.go (lines 85-106): every job
is launched on its own goroutine under a `WaitGroup`; each failing job logs
its error and clears the shared atomic `success` flag; after `wg.Wait()`,
`onSuccess` runs when the flag is still set and the callback is set. -/
def runJobsUtil {E : Type} (jobs : List (Option E)) (hasOnSuccess : Bool) : TickTrace E :=
  let success := jobs.all (fun r => r.isNone)
  { launched := jobs.length
    logged := jobs.filterMap (fun r => r)
    successCalls := if success && hasOnSuccess then 1 else 0 }

/-- Observable trace of a prefix of the `Every` ticker loop: callback
invocations begun, panic payloads caught and logged by the per-invocation
recover block (in order), and whether the loop returned after observing the
done signal within the observed window. -/
structure TickerTrace (P : Type) where
  invocations : Nat
  loggedPanics : List P
  returned : Bool
deriving DecidableEq, Repr

/-- The ticker loop shared by `EveryBuilder.Do` (src/scheduler/every.go
lines 21-46) and `Every` (src/util/scheduler/scheduler.go lines 27-53):
each iteration a `select` polls the done channel — if done, the goroutine
returns — otherwise the ticker fires and the callback runs inside a
deferred-recover block that catches a panic, logs its payload with a stack
trace, and lets the loop continue.  `done i` tells whether the done channel
is observed closed at iteration `i`; `panicOf i` is the panic payload of the
i-th callback invocation (`none` = normal return); `fuel` bounds the
observed window of the infinite loop. -/
def everyAux {P : Type} (done : Nat → Bool) (panicOf : Nat → Option P) :
    Nat → Nat → TickerTrace P
  | 0, _ => ⟨0, [], false⟩
  | fuel + 1, iter =>
    if done iter then
      ⟨0, [], true⟩
    else
      let rest := everyAux done panicOf fuel (iter + 1)
      match panicOf iter with
      | some p => ⟨rest.invocations + 1, p :: rest.loggedPanics, rest.returned⟩
      | none => ⟨rest.invocations + 1, rest.loggedPanics, rest.returned⟩

/-- The `Every` ticker loop observed from its first iteration. -/
def everyLoop {P : Type} (done : Nat → Bool) (panicOf : Nat → Option P)
    (fuel : Nat) : TickerTrace P :=
  everyAux done panicOf fuel 0

/-! ### Helper lemmas about the retry loops -/

theorem retryLoopAux_succ {E : Type} (k : Nat) (strategy : Nat → Nat) (hasOnRetry : Bool)
    (shouldRetry : Option (E → Bool)) (task : Nat → Option E)
    (doneBefore cancelWins : Nat → Bool) (fuel attempt : Nat) (last : Option E) :
    retryLoopAux k strategy hasOnRetry shouldRetry task doneBefore cancelWins
        (fuel + 1) attempt last =
      if doneBefore attempt then ⟨0, [], [], Outcome.cancelled⟩
      else
        match task attempt with
        | none => ⟨1, [], [], Outcome.success⟩
        | some e =>
          if shouldRetry.elim false (fun p => !(p e)) then ⟨1, [], [], Outcome.failed e⟩
          else if attempt = k - 1 then ⟨1, [], [], Outcome.failed e⟩
          else
            let w := strategy attempt
            let evs := if hasOnRetry then [(attempt + 1, e, strategy (attempt + 1))] else []
            if cancelWins attempt then ⟨1, [], evs, Outcome.cancelled⟩
            else
              let rest := retryLoopAux k strategy hasOnRetry shouldRetry task
                doneBefore cancelWins fuel (attempt + 1) (some e)
              ⟨rest.calls + 1, w :: rest.waits, evs ++ rest.onRetryEvents, rest.result⟩ := rfl

theorem retryLoopAux_allFail {E : Type} (k : Nat) (strategy : Nat → Nat) (hasOnRetry : Bool)
    (task : Nat → Option E) (err : Nat → E)
    (htask : ∀ i, task i = some (err i)) :
    ∀ fuel attempt last, 1 ≤ fuel → fuel + attempt = k →
      retryLoopAux k strategy hasOnRetry none task (fun _ => false) (fun _ => false)
          fuel attempt last =
        ⟨fuel, (List.range' attempt (fuel - 1)).map strategy,
         if hasOnRetry then
           (List.range' attempt (fuel - 1)).map (fun a => (a + 1, err a, strategy (a + 1)))
         else [],
         Outcome.failed (err (k - 1))⟩ := by
  intro fuel
  induction fuel with
  | zero => intro attempt last h1 _; exact absurd h1 (by omega)
  | succ fuel ih =>
    intro attempt last _ hk
    cases fuel with
    | zero =>
      have ha : attempt = k - 1 := by omega
      subst ha
      simp [retryLoopAux_succ, htask]
    | succ f =>
      have ha : ¬ (attempt = k - 1) := by omega
      have hrest := ih (attempt + 1) (some (err attempt)) (by omega) (by omega)
      rw [retryLoopAux_succ]
      simp only [htask attempt, Option.elim, Bool.false_eq_true, if_false, ha, hrest]
      simp only [Nat.add_sub_cancel]
      rw [List.range'_succ]
      cases hasOnRetry <;> simp

theorem retryLoopAux_succeedAt {E : Type} (k : Nat) (strategy : Nat → Nat) (hasOnRetry : Bool)
    (shouldRetry : Option (E → Bool)) (task : Nat → Option E) (err : Nat → E) :
    ∀ j fuel attempt last, j < fuel → fuel + attempt = k →
      (∀ i, i < j → task (attempt + i) = some (err (attempt + i))) →
      (∀ i, i < j → (shouldRetry.elim false (fun p => !(p (err (attempt + i))))) = false) →
      task (attempt + j) = none →
      retryLoopAux k strategy hasOnRetry shouldRetry task (fun _ => false) (fun _ => false)
          fuel attempt last =
        ⟨j + 1, (List.range' attempt j).map strategy,
         if hasOnRetry then
           (List.range' attempt j).map (fun a => (a + 1, err a, strategy (a + 1)))
         else [],
         Outcome.success⟩ := by
  intro j
  induction j with
  | zero =>
    intro fuel attempt last hj hk _ _ hsucc
    cases fuel with
    | zero => exact absurd hj (by omega)
    | succ f =>
      have h0 : task attempt = none := by simpa using hsucc
      simp [retryLoopAux, h0]
  | succ j ih =>
    intro fuel attempt last hj hk hfail happr hsucc
    cases fuel with
    | zero => exact absurd hj (by omega)
    | succ f =>
      have h0 : task attempt = some (err attempt) := by
        have := hfail 0 (by omega)
        simpa using this
      have ha : ¬ (attempt = k - 1) := by omega
      have happr0 : (shouldRetry.elim false (fun p => !(p (err attempt)))) = false := by
        have := happr 0 (by omega)
        simpa using this
      have hrest := ih f (attempt + 1) (some (err attempt)) (by omega) (by omega)
        (fun i hi => by
          have := hfail (i + 1) (by omega)
          simpa [Nat.add_assoc, Nat.add_comm 1 i] using this)
        (fun i hi => by
          have := happr (i + 1) (by omega)
          simpa [Nat.add_assoc, Nat.add_comm 1 i] using this)
        (by
          have : attempt + 1 + j = attempt + (j + 1) := by omega
          rw [this]; exact hsucc)
      simp only [retryLoopAux, h0, happr0, Bool.false_eq_true, if_false, ha, hrest]
      rw [List.range'_succ]
      cases hasOnRetry <;> simp

theorem retryLoopAux_cancelInWait {E : Type} (k : Nat) (strategy : Nat → Nat) (hasOnRetry : Bool)
    (shouldRetry : Option (E → Bool)) (task : Nat → Option E) (err : Nat → E)
    (cancelWins : Nat → Bool) :
    ∀ j fuel attempt last, j + 1 < fuel → fuel + attempt = k →
      (∀ i, i ≤ j → task (attempt + i) = some (err (attempt + i))) →
      (∀ i, i ≤ j → (shouldRetry.elim false (fun p => !(p (err (attempt + i))))) = false) →
      (∀ i, i < j → cancelWins (attempt + i) = false) →
      cancelWins (attempt + j) = true →
      (retryLoopAux k strategy hasOnRetry shouldRetry task (fun _ => false) cancelWins
          fuel attempt last).result = Outcome.cancelled ∧
      (retryLoopAux k strategy hasOnRetry shouldRetry task (fun _ => false) cancelWins
          fuel attempt last).calls = j + 1 := by
  intro j
  induction j with
  | zero =>
    intro fuel attempt last hj hk hfail happr _ hcan
    cases fuel with
    | zero => exact absurd hj (by omega)
    | succ f =>
      have h0 : task attempt = some (err attempt) := by simpa using hfail 0 (by omega)
      have happr0 : (shouldRetry.elim false (fun p => !(p (err attempt)))) = false := by
        simpa using happr 0 (by omega)
      have ha : ¬ (attempt = k - 1) := by omega
      have hc : cancelWins attempt = true := by simpa using hcan
      simp [retryLoopAux, h0, happr0, ha, hc]
  | succ j ih =>
    intro fuel attempt last hj hk hfail happr hnc hcan
    cases fuel with
    | zero => exact absurd hj (by omega)
    | succ f =>
      have h0 : task attempt = some (err attempt) := by simpa using hfail 0 (by omega)
      have happr0 : (shouldRetry.elim false (fun p => !(p (err attempt)))) = false := by
        simpa using happr 0 (by omega)
      have ha : ¬ (attempt = k - 1) := by omega
      have hc : cancelWins attempt = false := by simpa using hnc 0 (by omega)
      have hrest := ih f (attempt + 1) (some (err attempt)) (by omega) (by omega)
        (fun i hi => by
          have := hfail (i + 1) (by omega)
          simpa [Nat.add_assoc, Nat.add_comm 1 i] using this)
        (fun i hi => by
          have := happr (i + 1) (by omega)
          simpa [Nat.add_assoc, Nat.add_comm 1 i] using this)
        (fun i hi => by
          have := hnc (i + 1) (by omega)
          simpa [Nat.add_assoc, Nat.add_comm 1 i] using this)
        (by
          have : attempt + 1 + j = attempt + (j + 1) := by omega
          rw [this]; exact hcan)
      simp only [retryLoopAux, h0, happr0, Bool.false_eq_true, if_false, ha, hc]
      constructor
      · exact hrest.1
      · simp [hrest.2]

theorem executeSyncTAux_succ {E : Type} (maxRetries : Nat) (task : Nat → Option E)
    (cancelWins : Nat → Bool) (fuel attempt : Nat) (last : Option E) :
    executeSyncTAux maxRetries task cancelWins (fuel + 1) attempt last =
      match task attempt with
      | none => (1, Outcome.success)
      | some e =>
        if attempt < maxRetries - 1 then
          if cancelWins attempt then
            (1, Outcome.cancelled)
          else
            let rest := executeSyncTAux maxRetries task cancelWins fuel (attempt + 1) (some e)
            (rest.1 + 1, rest.2)
        else
          let rest := executeSyncTAux maxRetries task cancelWins fuel (attempt + 1) (some e)
          (rest.1 + 1, rest.2) := rfl

theorem executeSyncTAux_allFail {E : Type} (k : Nat) (task : Nat → Option E) (err : Nat → E)
    (htask : ∀ i, task i = some (err i)) :
    ∀ fuel attempt last, 1 ≤ fuel → fuel + attempt = k →
      executeSyncTAux k task (fun _ => false) fuel attempt last =
        (fuel, Outcome.failed (err (k - 1))) := by
  intro fuel
  induction fuel with
  | zero => intro attempt last h1 _; exact absurd h1 (by omega)
  | succ fuel ih =>
    intro attempt last _ hk
    cases fuel with
    | zero =>
      have ha : attempt = k - 1 := by omega
      subst ha
      simp [executeSyncTAux_succ, executeSyncTAux, htask]
    | succ f =>
      have ha : attempt < k - 1 := by omega
      have hrest := ih (attempt + 1) (some (err attempt)) (by omega) (by omega)
      rw [executeSyncTAux_succ]
      simp [htask attempt, ha, hrest]

theorem executeSyncTAux_succeedAt {E : Type} (k : Nat) (task : Nat → Option E) (err : Nat → E) :
    ∀ j fuel attempt last, j < fuel → fuel + attempt = k →
      (∀ i, i < j → task (attempt + i) = some (err (attempt + i))) →
      task (attempt + j) = none →
      executeSyncTAux k task (fun _ => false) fuel attempt last =
        (j + 1, Outcome.success) := by
  intro j
  induction j with
  | zero =>
    intro fuel attempt last hj hk _ hsucc
    cases fuel with
    | zero => exact absurd hj (by omega)
    | succ f =>
      have h0 : task attempt = none := by simpa using hsucc
      simp [executeSyncTAux_succ, h0]
  | succ j ih =>
    intro fuel attempt last hj hk hfail hsucc
    cases fuel with
    | zero => exact absurd hj (by omega)
    | succ f =>
      have h0 : task attempt = some (err attempt) := by simpa using hfail 0 (by omega)
      have hrest := ih f (attempt + 1) (some (err attempt)) (by omega) (by omega)
        (fun i hi => by
          have := hfail (i + 1) (by omega)
          simpa [Nat.add_assoc, Nat.add_comm 1 i] using this)
        (by
          have : attempt + 1 + j = attempt + (j + 1) := by omega
          rw [this]; exact hsucc)
      rw [executeSyncTAux_succ]
      simp [h0, hrest]

theorem executeSyncTAux_cancelInWait {E : Type} (k : Nat) (task : Nat → Option E) (err : Nat → E)
    (cancelWins : Nat → Bool) :
    ∀ j fuel attempt last, j + 1 < fuel → fuel + attempt = k →
      (∀ i, i ≤ j → task (attempt + i) = some (err (attempt + i))) →
      (∀ i, i < j → cancelWins (attempt + i) = false) →
      cancelWins (attempt + j) = true →
      executeSyncTAux k task cancelWins fuel attempt last =
        (j + 1, Outcome.cancelled) := by
  intro j
  induction j with
  | zero =>
    intro fuel attempt last hj hk hfail _ hcan
    cases fuel with
    | zero => exact absurd hj (by omega)
    | succ f =>
      have h0 : task attempt = some (err attempt) := by simpa using hfail 0 (by omega)
      have ha : attempt < k - 1 := by omega
      have hc : cancelWins attempt = true := by simpa using hcan
      simp [executeSyncTAux_succ, h0, ha, hc]
  | succ j ih =>
    intro fuel attempt last hj hk hfail hnc hcan
    cases fuel with
    | zero => exact absurd hj (by omega)
    | succ f =>
      have h0 : task attempt = some (err attempt) := by simpa using hfail 0 (by omega)
      have ha : attempt < k - 1 := by omega
      have hc : cancelWins attempt = false := by simpa using hnc 0 (by omega)
      have hrest := ih f (attempt + 1) (some (err attempt)) (by omega) (by omega)
        (fun i hi => by
          have := hfail (i + 1) (by omega)
          simpa [Nat.add_assoc, Nat.add_comm 1 i] using this)
        (fun i hi => by
          have := hnc (i + 1) (by omega)
          simpa [Nat.add_assoc, Nat.add_comm 1 i] using this)
        (by
          have : attempt + 1 + j = attempt + (j + 1) := by omega
          rw [this]; exact hcan)
      rw [executeSyncTAux_succ]
      simp [h0, ha, hc, hrest]

/-! ### Helper lemmas about the `Every` ticker loop -/

theorem everyAux_succ {P : Type} (done : Nat → Bool) (panicOf : Nat → Option P)
    (fuel iter : Nat) :
    everyAux done panicOf (fuel + 1) iter =
      if done iter then ⟨0, [], true⟩
      else
        let rest := everyAux done panicOf fuel (iter + 1)
        match panicOf iter with
        | some p => ⟨rest.invocations + 1, p :: rest.loggedPanics, rest.returned⟩
        | none => ⟨rest.invocations + 1, rest.loggedPanics, rest.returned⟩ := rfl

theorem everyAux_panic_indep {P P' : Type} (done : Nat → Bool)
    (panicOf : Nat → Option P) (panicOf' : Nat → Option P') :
    ∀ fuel iter,
      (everyAux done panicOf fuel iter).invocations
          = (everyAux done panicOf' fuel iter).invocations ∧
      (everyAux done panicOf fuel iter).returned
          = (everyAux done panicOf' fuel iter).returned := by
  intro fuel
  induction fuel with
  | zero => intro iter; exact ⟨rfl, rfl⟩
  | succ fuel ih =>
    intro iter
    rw [everyAux_succ, everyAux_succ]
    rcases h : done iter with _ | _
    · simp only [Bool.false_eq_true, if_false]
      have hrest := ih (iter + 1)
      cases hp : panicOf iter <;> cases hp' : panicOf' iter <;>
        simp [hrest.1, hrest.2]
    · simp

theorem everyAux_noDone {P : Type} (done : Nat → Bool) (panicOf : Nat → Option P)
    (hdone : ∀ i, done i = false) :
    ∀ fuel iter,
      everyAux done panicOf fuel iter =
        ⟨fuel, (List.range' iter fuel).filterMap panicOf, false⟩ := by
  intro fuel
  induction fuel with
  | zero => intro iter; rfl
  | succ fuel ih =>
    intro iter
    rw [everyAux_succ]
    rw [List.range'_succ]
    have hrest := ih (iter + 1)
    cases hp : panicOf iter <;> simp [hdone iter, hrest, hp]

theorem everyAux_firstDone {P : Type} (done : Nat → Bool) (panicOf : Nat → Option P)
    (j : Nat) (hj : done j = true) (hfirst : ∀ i, i < j → done i = false) :
    ∀ fuel iter, iter ≤ j →
      (everyAux done panicOf fuel iter).invocations = min (j - iter) fuel ∧
      (j - iter < fuel → (everyAux done panicOf fuel iter).returned = true) := by
  intro fuel
  induction fuel with
  | zero => intro iter _; exact ⟨by simp [everyAux], by omega⟩
  | succ fuel ih =>
    intro iter hiter
    rw [everyAux_succ]
    rcases Nat.eq_or_lt_of_le hiter with heq | hlt
    · subst heq
      simp [hj]
    · have hd : done iter = false := hfirst iter hlt
      have hrest := ih (iter + 1) (by omega)
      constructor
      · cases hp : panicOf iter <;> simp [hd, hp, hrest.1] <;> omega
      · intro h
        cases hp : panicOf iter <;> simp [hd, hp] <;> exact hrest.2 (by omega)

theorem retryLoopAux_rejectAt {E : Type} (k : Nat) (strategy : Nat → Nat) (hasOnRetry : Bool)
    (shouldRetry : Option (E → Bool)) (task : Nat → Option E) (err : Nat → E) :
    ∀ j fuel attempt last, j < fuel → fuel + attempt = k →
      (∀ i, i < j → task (attempt + i) = some (err (attempt + i))) →
      (∀ i, i < j → (shouldRetry.elim false (fun p => !(p (err (attempt + i))))) = false) →
      ∀ e, task (attempt + j) = some e →
        (shouldRetry.elim false (fun p => !(p e))) = true →
      (retryLoopAux k strategy hasOnRetry shouldRetry task (fun _ => false) (fun _ => false)
          fuel attempt last).calls = j + 1 ∧
      (retryLoopAux k strategy hasOnRetry shouldRetry task (fun _ => false) (fun _ => false)
          fuel attempt last).result = Outcome.failed e := by
  intro j
  induction j with
  | zero =>
    intro fuel attempt last hj hk _ _ e he hrej
    cases fuel with
    | zero => exact absurd hj (by omega)
    | succ f =>
      have h0 : task attempt = some e := by simpa using he
      simp [retryLoopAux_succ, h0, hrej]
  | succ j ih =>
    intro fuel attempt last hj hk hfail happr e he hrej
    cases fuel with
    | zero => exact absurd hj (by omega)
    | succ f =>
      have h0 : task attempt = some (err attempt) := by simpa using hfail 0 (by omega)
      have happr0 : (shouldRetry.elim false (fun p => !(p (err attempt)))) = false := by
        simpa using happr 0 (by omega)
      have ha : ¬ (attempt = k - 1) := by omega
      have hrest := ih f (attempt + 1) (some (err attempt)) (by omega) (by omega)
        (fun i hi => by
          have := hfail (i + 1) (by omega)
          simpa [Nat.add_assoc, Nat.add_comm 1 i] using this)
        (fun i hi => by
          have := happr (i + 1) (by omega)
          simpa [Nat.add_assoc, Nat.add_comm 1 i] using this)
        e
        (by
          have : attempt + 1 + j = attempt + (j + 1) := by omega
          rw [this]; exact he)
        hrej
      rw [retryLoopAux_succ]
      simp only [h0, happr0, Bool.false_eq_true, if_false, ha]
      constructor
      · simp [hrest.1]
      · simp [hrest.2]

/-! ### Claim theorems -/

/-- C1 (counterexample): with `MaxAttempts = 2`, `FixedBackoff(5)`, an
`OnRetry` callback and an always-failing task, the wait performed between
attempt 1 and attempt 2 is 0 — the strategy's value at index 0 — and not
`FixedBackoff(5)(1) = 5` as the claim requires; moreover the single
`OnRetry` invocation carries attempt argument 1 (not 2) and reports a wait
of 5 while the wait actually performed is 0. -/
theorem retryLoop_wait_claim_counterexample :
    (executeSync 2 (fixedBackoff 5) true (fun _ => some 0) (fun _ => false)
        (fun _ => false) : LoopTrace Nat).waits = [0] ∧
    fixedBackoff 5 1 = 5 ∧
    (executeSync 2 (fixedBackoff 5) true (fun _ => some 0) (fun _ => false)
        (fun _ => false) : LoopTrace Nat).onRetryEvents = [(1, 0, 5)] ∧
    (executeSync 2 (fixedBackoff 5) true (fun _ => some 0) (fun _ => false)
        (fun _ => false) : LoopTrace Nat).waits ≠ [fixedBackoff 5 1] := by
  decide

/-- C1 (amended): between 1-based attempt `i` and attempt `i+1`,
`ExecuteSync` waits for the duration the backoff strategy returns for the
0-based completed-attempt index `i - 1` (so the wait before the second
attempt is `strategy 0`, which is 0 for every built-in strategy); the
`OnRetry` callback is invoked with `(i, lastErr, strategy i)`, i.e. the
attempt argument is the 1-based number of the completed attempt and the
reported wait is the strategy value for the next 0-based index — the wait
that will be performed in the following gap, not the one performed now;
and no wait is performed after the final attempt (there are exactly
`k - 1` completed waits for `k` failing attempts). -/
theorem retryLoop_wait_onRetry_offset {E : Type} (k : Nat) (strategy : Nat → Nat)
    (task : Nat → Option E) (err : Nat → E) (hk : 1 ≤ k)
    (htask : ∀ i, task i = some (err i)) :
    (executeSync k strategy true task (fun _ => false) (fun _ => false)).waits
        = (List.range (k - 1)).map strategy ∧
    (executeSync k strategy true task (fun _ => false) (fun _ => false)).onRetryEvents
        = (List.range (k - 1)).map (fun a => (a + 1, err a, strategy (a + 1))) ∧
    (executeSync k strategy true task (fun _ => false) (fun _ => false)).waits.length
        = k - 1 := by
  have h := retryLoopAux_allFail k strategy true task err htask k 0 none hk (by omega)
  unfold executeSync retryLoop
  rw [h]
  simp [List.range_eq_range']

theorem retryLoop_wait_onRetry_offset_witness :
    (executeSync 3 (fun a => a * 10) true (fun i => some i) (fun _ => false)
        (fun _ => false)).waits = (List.range (3 - 1)).map (fun a => a * 10) ∧
    (executeSync 3 (fun a => a * 10) true (fun i => some i) (fun _ => false)
        (fun _ => false)).onRetryEvents
        = (List.range (3 - 1)).map (fun a => (a + 1, a, (a + 1) * 10)) ∧
    (executeSync 3 (fun a => a * 10) true (fun i => some i) (fun _ => false)
        (fun _ => false)).waits.length = 3 - 1 :=
  retryLoop_wait_onRetry_offset 3 (fun a => a * 10) (fun i => some i) (fun i => i)
    (by decide) (fun i => rfl)

/-- C2: with `MaxAttempts = k ≥ 1`, no cancellation and no retryability
predicate, an always-failing task is invoked exactly `k` times and the
error of the k-th (last) invocation is returned — not an aggregate — and a
task that first succeeds on attempt `m ≤ k` is invoked exactly `m` times
with a nil error returned; this holds for both `retryLoop`-based
`ExecuteSync` (retry.go) and `ExecuteSyncT` (sync.go). -/
theorem executeSync_attempt_count_last_error {E : Type} (k m : Nat)
    (strategy : Nat → Nat) (hasOnRetry : Bool) (task : Nat → Option E)
    (err : Nat → E) (hk : 1 ≤ k) :
    ((∀ i, task i = some (err i)) →
      (executeSync k strategy hasOnRetry task (fun _ => false) (fun _ => false)).calls = k ∧
      (executeSync k strategy hasOnRetry task (fun _ => false) (fun _ => false)).result
          = Outcome.failed (err (k - 1)) ∧
      (executeSyncT k task (fun _ => false)).1 = k ∧
      (executeSyncT k task (fun _ => false)).2 = Outcome.failed (err (k - 1))) ∧
    (1 ≤ m → m ≤ k →
      (∀ i, i < m - 1 → task i = some (err i)) → task (m - 1) = none →
      (executeSync k strategy hasOnRetry task (fun _ => false) (fun _ => false)).calls = m ∧
      (executeSync k strategy hasOnRetry task (fun _ => false) (fun _ => false)).result
          = Outcome.success ∧
      (executeSyncT k task (fun _ => false)).1 = m ∧
      (executeSyncT k task (fun _ => false)).2 = Outcome.success) := by
  constructor
  · intro htask
    have h1 := retryLoopAux_allFail k strategy hasOnRetry task err htask k 0 none hk (by omega)
    have h2 := executeSyncTAux_allFail k task err htask k 0 none hk (by omega)
    unfold executeSync retryLoop executeSyncT
    rw [h1, h2]
    exact ⟨rfl, rfl, rfl, rfl⟩
  · intro hm hmk hfail hsucc
    have h1 := retryLoopAux_succeedAt k strategy hasOnRetry none task err (m - 1) k 0 none
      (by omega) (by omega)
      (fun i hi => by simpa using hfail i hi)
      (fun i _ => rfl)
      (by simpa using hsucc)
    have h2 := executeSyncTAux_succeedAt k task err (m - 1) k 0 none
      (by omega) (by omega)
      (fun i hi => by simpa using hfail i hi)
      (by simpa using hsucc)
    unfold executeSync retryLoop executeSyncT
    rw [h1, h2]
    refine ⟨by simp; omega, rfl, by simp; omega, rfl⟩

theorem executeSync_attempt_count_last_error_witness :
    ((executeSync 3 (fun _ => 0) false (fun i => some (i + 100)) (fun _ => false)
        (fun _ => false)).calls = 3 ∧
      (executeSync 3 (fun _ => 0) false (fun i => some (i + 100)) (fun _ => false)
        (fun _ => false)).result = Outcome.failed (3 - 1 + 100) ∧
      (executeSyncT 3 (fun i => some (i + 100)) (fun _ => false)).1 = 3 ∧
      (executeSyncT 3 (fun i => some (i + 100)) (fun _ => false)).2
          = Outcome.failed (3 - 1 + 100)) ∧
    ((executeSync 3 (fun _ => 0) false (fun i => if i < 1 then some (i + 100) else none)
        (fun _ => false) (fun _ => false)).calls = 2 ∧
      (executeSync 3 (fun _ => 0) false (fun i => if i < 1 then some (i + 100) else none)
        (fun _ => false) (fun _ => false)).result = Outcome.success ∧
      (executeSyncT 3 (fun i => if i < 1 then some (i + 100) else none) (fun _ => false)).1 = 2 ∧
      (executeSyncT 3 (fun i => if i < 1 then some (i + 100) else none) (fun _ => false)).2
          = Outcome.success) :=
  ⟨(executeSync_attempt_count_last_error 3 2 (fun _ => 0) false
      (fun i => some (i + 100)) (fun i => i + 100) (by decide)).1 (fun i => rfl),
   (executeSync_attempt_count_last_error 3 2 (fun _ => 0) false
      (fun i => if i < 1 then some (i + 100) else none) (fun i => i + 100) (by decide)).2
      (by decide) (by decide) (fun i hi => by simp; omega) (by decide)⟩

/-- C6: if the cancellation token is cancelled while the retry loop is
waiting out the backoff delay that follows failing attempt `j + 1`
(0-based wait index `j`, with at least one more attempt permitted),
`ExecuteSync` returns the cancellation error — not the task's last
error — and the task has been invoked exactly `j + 1 < k` times; likewise
for `ExecuteSyncT`. -/
theorem cancellation_during_backoff_wait {E : Type} (k j : Nat)
    (strategy : Nat → Nat) (hasOnRetry : Bool) (task : Nat → Option E)
    (err : Nat → E) (cancelWins : Nat → Bool)
    (hj : j + 1 < k)
    (hfail : ∀ i, i ≤ j → task i = some (err i))
    (hnc : ∀ i, i < j → cancelWins i = false)
    (hc : cancelWins j = true) :
    (executeSync k strategy hasOnRetry task (fun _ => false) cancelWins).result
        = Outcome.cancelled ∧
    (executeSync k strategy hasOnRetry task (fun _ => false) cancelWins).calls = j + 1 ∧
    (executeSync k strategy hasOnRetry task (fun _ => false) cancelWins).calls < k ∧
    (executeSyncT k task cancelWins).2 = Outcome.cancelled ∧
    (executeSyncT k task cancelWins).1 = j + 1 ∧
    (executeSyncT k task cancelWins).1 < k := by
  have h1 := retryLoopAux_cancelInWait k strategy hasOnRetry none task err cancelWins
    j k 0 none (by omega) (by omega)
    (fun i hi => by simpa using hfail i hi)
    (fun i _ => rfl)
    (fun i hi => by simpa using hnc i hi)
    (by simpa using hc)
  have h2 := executeSyncTAux_cancelInWait k task err cancelWins j k 0 none
    (by omega) (by omega)
    (fun i hi => by simpa using hfail i hi)
    (fun i hi => by simpa using hnc i hi)
    (by simpa using hc)
  unfold executeSync retryLoop executeSyncT
  rw [h2]
  exact ⟨h1.1, h1.2, by rw [h1.2]; omega, rfl, rfl, by omega⟩

theorem cancellation_during_backoff_wait_witness :
    (executeSync 5 (fun _ => 7) false (fun i => some i) (fun _ => false)
        (fun i => i == 1)).result = Outcome.cancelled ∧
    (executeSync 5 (fun _ => 7) false (fun i => some i) (fun _ => false)
        (fun i => i == 1)).calls = 1 + 1 ∧
    (executeSync 5 (fun _ => 7) false (fun i => some i) (fun _ => false)
        (fun i => i == 1)).calls < 5 ∧
    (executeSyncT 5 (fun i => some i) (fun i => i == 1)).2 = Outcome.cancelled ∧
    (executeSyncT 5 (fun i => some i) (fun i => i == 1)).1 = 1 + 1 ∧
    (executeSyncT 5 (fun i => some i) (fun i => i == 1)).1 < 5 :=
  cancellation_during_backoff_wait 5 1 (fun _ => 7) false (fun i => some i)
    (fun i => i) (fun i => i == 1) (by decide) (fun i _ => rfl)
    (fun i hi => by simp; omega) (by decide)

/-- C3: whatever the task, the configuration and the combination of nil
(`false`) or non-nil (`true`) callbacks, `ExecuteAsync` invokes exactly one
of `onSuccess`/`onFailure` exactly once when its retry loop concludes —
never both, never zero times when both are supplied — and a nil callback is
skipped without any nil-function-call fault on every outcome path
(success, exhausted retries, cancellation); this holds both for
`ExecuteAsync` of retry.go and for the `ExecuteAsync` wrapper of async.go. -/
theorem executeAsync_exactly_one_callback {E : Type} (k maxRetries : Nat)
    (strategy : Nat → Nat) (hasOnRetry : Bool) (task task' : Nat → Option E)
    (doneBefore cancelWins cancelWins' : Nat → Bool) (hS hF : Bool) :
    ((executeAsync k strategy hasOnRetry task doneBefore cancelWins hS hF).nilCallFault
        = false ∧
     (executeAsync k strategy hasOnRetry task doneBefore cancelWins hS hF).successCalls ≤ 1 ∧
     (executeAsync k strategy hasOnRetry task doneBefore cancelWins hS hF).failureCalls ≤ 1 ∧
     ((executeAsync k strategy hasOnRetry task doneBefore cancelWins hS hF).successCalls = 0 ∨
      (executeAsync k strategy hasOnRetry task doneBefore cancelWins hS hF).failureCalls = 0) ∧
     (hS = true → hF = true →
       (executeAsync k strategy hasOnRetry task doneBefore cancelWins hS hF).successCalls +
       (executeAsync k strategy hasOnRetry task doneBefore cancelWins hS hF).failureCalls = 1) ∧
     (hS = false →
       (executeAsync k strategy hasOnRetry task doneBefore cancelWins hS hF).successCalls = 0) ∧
     (hF = false →
       (executeAsync k strategy hasOnRetry task doneBefore cancelWins hS hF).failureCalls = 0)) ∧
    ((executeAsyncWrapped maxRetries task' cancelWins' hS hF).nilCallFault = false ∧
     ((executeAsyncWrapped maxRetries task' cancelWins' hS hF).successCalls = 0 ∨
      (executeAsyncWrapped maxRetries task' cancelWins' hS hF).failureCalls = 0) ∧
     (hS = true → hF = true →
       (executeAsyncWrapped maxRetries task' cancelWins' hS hF).successCalls +
       (executeAsyncWrapped maxRetries task' cancelWins' hS hF).failureCalls = 1) ∧
     (hS = false →
       (executeAsyncWrapped maxRetries task' cancelWins' hS hF).successCalls = 0) ∧
     (hF = false →
       (executeAsyncWrapped maxRetries task' cancelWins' hS hF).failureCalls = 0)) := by
  constructor
  · unfold executeAsync
    cases (retryLoop k strategy hasOnRetry none task doneBefore cancelWins).result <;>
      cases hS <;> cases hF <;> simp
  · unfold executeAsyncWrapped executeAsyncT
    cases (executeSyncTAux maxRetries task' cancelWins' maxRetries 0 none).2 <;>
      cases hS <;> cases hF <;> simp

theorem executeAsync_exactly_one_callback_witness :
    ((executeAsync 2 (fun _ => 0) false (fun i => some i) (fun _ => false)
        (fun _ => false) true true).nilCallFault = false ∧
     (executeAsync 2 (fun _ => 0) false (fun i => some i) (fun _ => false)
        (fun _ => false) true true).successCalls ≤ 1 ∧
     (executeAsync 2 (fun _ => 0) false (fun i => some i) (fun _ => false)
        (fun _ => false) true true).failureCalls ≤ 1 ∧
     ((executeAsync 2 (fun _ => 0) false (fun i => some i) (fun _ => false)
        (fun _ => false) true true).successCalls = 0 ∨
      (executeAsync 2 (fun _ => 0) false (fun i => some i) (fun _ => false)
        (fun _ => false) true true).failureCalls = 0) ∧
     (true = true → true = true →
       (executeAsync 2 (fun _ => 0) false (fun i => some i) (fun _ => false)
        (fun _ => false) true true).successCalls +
       (executeAsync 2 (fun _ => 0) false (fun i => some i) (fun _ => false)
        (fun _ => false) true true).failureCalls = 1) ∧
     (true = false →
       (executeAsync 2 (fun _ => 0) false (fun i => some i) (fun _ => false)
        (fun _ => false) true true).successCalls = 0) ∧
     (true = false →
       (executeAsync 2 (fun _ => 0) false (fun i => some i) (fun _ => false)
        (fun _ => false) true true).failureCalls = 0)) ∧
    ((executeAsyncWrapped 2 (fun i => some i) (fun _ => false) true true).nilCallFault
        = false ∧
     ((executeAsyncWrapped 2 (fun i => some i) (fun _ => false) true true).successCalls = 0 ∨
      (executeAsyncWrapped 2 (fun i => some i) (fun _ => false) true true).failureCalls = 0) ∧
     (true = true → true = true →
       (executeAsyncWrapped 2 (fun i => some i) (fun _ => false) true true).successCalls +
       (executeAsyncWrapped 2 (fun i => some i) (fun _ => false) true true).failureCalls = 1) ∧
     (true = false →
       (executeAsyncWrapped 2 (fun i => some i) (fun _ => false) true true).successCalls = 0) ∧
     (true = false →
       (executeAsyncWrapped 2 (fun i => some i) (fun _ => false) true true).failureCalls = 0)) :=
  executeAsync_exactly_one_callback 2 2 (fun _ => 0) false (fun i => some i)
    (fun i => some i) (fun _ => false) (fun _ => false) (fun _ => false) true true

/-- C4: on every tick, both `runJobs` implementations launch every
registered job (one concurrent task per job, regardless of other jobs'
failures), log exactly the failing jobs' errors, invoke `onSuccess` exactly
once when every job succeeded and the callback is provided, and never
invoke `onSuccess` when at least one job failed. -/
theorem scheduler_tick_success_and_logging {E : Type} (jobs : List (Option E))
    (hasCb : Bool) :
    (runJobs jobs hasCb).launched = jobs.length ∧
    (runJobsUtil jobs hasCb).launched = jobs.length ∧
    (runJobs jobs hasCb).logged = jobs.filterMap (fun r => r) ∧
    (runJobsUtil jobs hasCb).logged = jobs.filterMap (fun r => r) ∧
    ((∀ r ∈ jobs, r = none) → hasCb = true →
      (runJobs jobs hasCb).successCalls = 1 ∧ (runJobsUtil jobs hasCb).successCalls = 1) ∧
    ((∃ e, some e ∈ jobs) →
      (runJobs jobs hasCb).successCalls = 0 ∧ (runJobsUtil jobs hasCb).successCalls = 0) := by
  refine ⟨rfl, rfl, rfl, rfl, ?_, ?_⟩
  · intro hall hcb
    subst hcb
    have h1 : jobs.findSome? (fun r => r) = none := by
      rw [List.findSome?_eq_none_iff]
      exact hall
    have h2 : jobs.all (fun r => r.isNone) = true := by
      rw [List.all_eq_true]
      intro x hx
      rw [hall x hx]
      rfl
    constructor
    · unfold runJobs
      simp [h1]
    · unfold runJobsUtil
      simp [h2]
  · rintro ⟨e, he⟩
    constructor
    · unfold runJobs
      have : jobs.findSome? (fun r => r) ≠ none := by
        intro hnone
        rw [List.findSome?_eq_none_iff] at hnone
        exact absurd (hnone (some e) he) (by simp)
      simp [Option.isNone_iff_eq_none, this]
    · unfold runJobsUtil
      have : jobs.all (fun r => r.isNone) = false := by
        rw [List.all_eq_false]
        exact ⟨some e, he, by simp⟩
      simp [this]

theorem scheduler_tick_success_and_logging_witness :
    ((runJobs ([none, none] : List (Option Nat)) true).launched = 2 ∧
     (runJobs ([none, none] : List (Option Nat)) true).successCalls = 1 ∧
     (runJobsUtil ([none, none] : List (Option Nat)) true).successCalls = 1) ∧
    ((runJobs ([some 3, none] : List (Option Nat)) true).logged = [3] ∧
     (runJobs ([some 3, none] : List (Option Nat)) true).successCalls = 0 ∧
     (runJobsUtil ([some 3, none] : List (Option Nat)) true).successCalls = 0) :=
  ⟨⟨(scheduler_tick_success_and_logging ([none, none] : List (Option Nat)) true).1,
    ((scheduler_tick_success_and_logging ([none, none] : List (Option Nat)) true).2.2.2.2.1
      (by decide) rfl).1,
    ((scheduler_tick_success_and_logging ([none, none] : List (Option Nat)) true).2.2.2.2.1
      (by decide) rfl).2⟩,
   ⟨(scheduler_tick_success_and_logging ([some 3, none] : List (Option Nat)) true).2.2.1,
    ((scheduler_tick_success_and_logging ([some 3, none] : List (Option Nat)) true).2.2.2.2.2
      ⟨3, by decide⟩).1,
    ((scheduler_tick_success_and_logging ([some 3, none] : List (Option Nat)) true).2.2.2.2.2
      ⟨3, by decide⟩).2⟩⟩

/-- C10: with an empty registered job list, every tick of both `runJobs`
implementations launches zero tasks, logs nothing, the collective wait
yields no error (`group.Wait`/the success flag observe no failure), and
`onSuccess` — when provided — is invoked exactly once for the tick. -/
theorem scheduler_empty_jobs_tick (E : Type) (hasCb : Bool) :
    runJobs ([] : List (Option E)) true = ⟨0, [], 1⟩ ∧
    runJobsUtil ([] : List (Option E)) true = ⟨0, [], 1⟩ ∧
    (runJobs ([] : List (Option E)) hasCb).launched = 0 ∧
    (runJobsUtil ([] : List (Option E)) hasCb).launched = 0 ∧
    ([] : List (Option E)).findSome? (fun r => r) = none := by
  cases hasCb <;> exact ⟨rfl, rfl, rfl, rfl, rfl⟩

/-- C7: the `Every` ticker loop begins no callback invocation after the
done signal has been observed (when the done signal is first observable at
tick `j`, at most `j` invocations begin, and the loop returns once it polls
the signal); a panic in any single invocation is caught by the
per-invocation recover block and logged with its payload, and never
terminates the loop — invocation count and loop termination are entirely
independent of which invocations panic, and with no cancellation the loop
performs one invocation per interval, logging exactly the faulting
invocations' payloads. -/
theorem every_cancellation_and_fault_isolation {P P' : Type} (done : Nat → Bool)
    (panicOf : Nat → Option P) (panicOf' : Nat → Option P') (fuel j : Nat) :
    ((everyLoop done panicOf fuel).invocations
        = (everyLoop done panicOf' fuel).invocations ∧
     (everyLoop done panicOf fuel).returned
        = (everyLoop done panicOf' fuel).returned) ∧
    (done j = true → (∀ i, i < j → done i = false) →
      (everyLoop done panicOf fuel).invocations = min j fuel ∧
      (j < fuel → (everyLoop done panicOf fuel).returned = true)) ∧
    ((∀ i, done i = false) →
      everyLoop done panicOf fuel
        = ⟨fuel, (List.range fuel).filterMap panicOf, false⟩) := by
  refine ⟨everyAux_panic_indep done panicOf panicOf' fuel 0, ?_, ?_⟩
  · intro hj hfirst
    have h := everyAux_firstDone done panicOf j hj hfirst fuel 0 (Nat.zero_le j)
    unfold everyLoop
    constructor
    · rw [h.1]
      simp
    · intro hlt
      exact h.2 (by omega)
  · intro hnone
    unfold everyLoop
    rw [everyAux_noDone done panicOf hnone fuel 0, List.range_eq_range']

theorem every_cancellation_and_fault_isolation_witness :
    ((everyLoop (fun i => i == 2) (fun i => if i = 0 then some 0 else none) 5).invocations
        = min 2 5 ∧
     (2 < 5 →
       (everyLoop (fun i => i == 2) (fun i => if i = 0 then some 0 else none) 5).returned
         = true)) ∧
    everyLoop (fun _ => false) (fun i => if i = 0 then some 0 else none) 3
        = ⟨3, (List.range 3).filterMap (fun i => if i = 0 then some 0 else none), false⟩ :=
  ⟨(every_cancellation_and_fault_isolation (fun i => i == 2)
      (fun i => if i = 0 then some 0 else none)
      (fun i => if i = 0 then some 0 else none) 5 2).2.1 (by decide) (by decide),
   (every_cancellation_and_fault_isolation (fun _ => false)
      (fun i => if i = 0 then some 0 else none)
      (fun i => if i = 0 then some 0 else none) 3 0).2.2 (fun i => rfl)⟩

/-- C5: the backoff laws. `FixedBackoff(d)(n) = d` and
`LinearBackoff(d)(n) = n·d` for every `n ≥ 1`; `NoBackoff()(n) = 0` for
every `n`; every strategy returns 0 at `n = 0`; every value
`ExponentialBackoff(d, m, cap)` returns is at most `cap`; its pre-jitter
delay is `min(d · m^(n-1), cap)` rounded down to whole nanoseconds; and
whenever that delay is positive the returned value is
`delay/2 + jitter/2` for a jitter `randVal % delay` lying in `[0, delay)`. -/
theorem backoff_laws (d inc cap randVal n : Nat) (m : ℚ) :
    (1 ≤ n → fixedBackoff d n = d) ∧
    (1 ≤ n → linearBackoff inc n = n * inc) ∧
    noBackoff n = 0 ∧
    (fixedBackoff d 0 = 0 ∧ linearBackoff inc 0 = 0 ∧
      exponentialBackoff d m cap randVal 0 = some 0 ∧ noBackoff 0 = 0) ∧
    (∀ v, exponentialBackoff d m cap randVal n = some v → v ≤ cap) ∧
    (0 ≤ m → (expDelay d m cap n : ℤ) = ⌊min ((d : ℚ) * m ^ (n - 1)) ((cap : ℚ))⌋) ∧
    (1 ≤ n → 1 ≤ expDelay d m cap n →
      exponentialBackoff d m cap randVal n
          = some (expDelay d m cap n / 2 + (randVal % expDelay d m cap n) / 2) ∧
      randVal % expDelay d m cap n < expDelay d m cap n) := by
  refine ⟨?_, ?_, rfl, ⟨?_, ?_, rfl, rfl⟩, ?_, ?_, ?_⟩
  · intro hn
    unfold fixedBackoff
    rw [if_neg (by omega)]
  · intro hn
    unfold linearBackoff
    rw [if_neg (by omega)]
  · rfl
  · rfl
  · intro v hv
    rcases Nat.eq_zero_or_pos n with hn | hn
    · subst hn
      simp only [exponentialBackoff, if_pos rfl] at hv
      injection hv with hv0
      omega
    · have hD : expDelay d m cap n ≤ cap := by
        simp only [expDelay]
        split
        · exact le_rfl
        · omega
      simp only [exponentialBackoff] at hv
      rw [if_neg (by omega)] at hv
      by_cases hD0 : expDelay d m cap n = 0
      · rw [if_pos hD0] at hv
        exact absurd hv (by simp)
      · rw [if_neg hD0] at hv
        have hmod : randVal % expDelay d m cap n < expDelay d m cap n :=
          Nat.mod_lt _ (by omega)
        simp only [Option.some.injEq] at hv
        generalize hr : randVal % expDelay d m cap n = r at hv hmod
        omega
  · intro hm
    have hraw : (0:ℚ) ≤ expRawDelay d m n :=
      mul_nonneg (Nat.cast_nonneg d) (pow_nonneg hm _)
    have htn : ((Int.toNat ⌊expRawDelay d m n⌋ : Nat) : ℤ) = ⌊expRawDelay d m n⌋ :=
      Int.toNat_of_nonneg (Int.floor_nonneg.mpr hraw)
    show ((expDelay d m cap n : Nat) : ℤ) = ⌊min (expRawDelay d m n) ((cap : ℚ))⌋
    simp only [expDelay]
    rcases le_total (expRawDelay d m n) ((cap : ℚ)) with h | h
    · have hfle : ⌊expRawDelay d m n⌋ ≤ (cap : ℤ) := by
        have h2 := Int.floor_le_floor h
        rwa [Int.floor_natCast] at h2
      rw [min_eq_left h, if_neg (by omega)]
      exact htn
    · have hfge : (cap : ℤ) ≤ ⌊expRawDelay d m n⌋ := by
        rw [Int.le_floor]
        push_cast
        exact h
      rw [min_eq_right h, Int.floor_natCast]
      split_ifs with hgt
      · rfl
      · omega
  · intro hn hD
    constructor
    · simp only [exponentialBackoff]
      rw [if_neg (by omega), if_neg (by omega)]
    · exact Nat.mod_lt _ (by omega)

theorem backoff_laws_witness :
    fixedBackoff 9 3 = 9 ∧
    linearBackoff 4 3 = 3 * 4 ∧
    noBackoff 3 = 0 ∧
    exponentialBackoff 9 2 10 7 0 = some 0 ∧
    (8 : Nat) ≤ 10 ∧
    ((expDelay 9 2 10 3 : ℤ) = ⌊min ((9 : ℚ) * 2 ^ (3 - 1)) ((10 : ℚ))⌋) ∧
    exponentialBackoff 9 2 10 7 3
        = some (expDelay 9 2 10 3 / 2 + (7 % expDelay 9 2 10 3) / 2) ∧
    7 % expDelay 9 2 10 3 < expDelay 9 2 10 3 := by
  have h := backoff_laws 9 4 10 7 3 2
  have hsome : exponentialBackoff 9 2 10 7 3 = some 8 := by
    norm_num [exponentialBackoff, expDelay, expRawDelay]
  have hD : 1 ≤ expDelay 9 2 10 3 := by
    norm_num [expDelay, expRawDelay]
  exact ⟨h.1 (by decide), h.2.1 (by decide), h.2.2.1, h.2.2.2.1.2.2.1,
    h.2.2.2.2.1 8 hsome, h.2.2.2.2.2.1 (by norm_num),
    (h.2.2.2.2.2.2 (by decide) hD).1, (h.2.2.2.2.2.2 (by decide) hD).2⟩

/-- C8 (counterexample): an error whose `Temporary()` method reports false
while its `Timeout()` method reports true exposes a timeout capability
marker reporting true, yet the default predicate classifies it as
non-retryable — the `Temporary()` type assertion shadows the `Timeout()`
check. -/
theorem retryableError_timeout_shadowed_counterexample :
    (GoError.mk (some false) (some true)).timeout = some true ∧
    retryableError (some (GoError.mk (some false) (some true))) = false := by
  decide

/-- C8 (amended): two call modes are supported — `ExecuteSync` (nil
predicate) retries every task error until attempts are exhausted, while
under `ExecuteSyncWithPredicate` an error the effective predicate rejects
is returned immediately with no further attempts, and a nil predicate
argument is replaced by `RetryableError`; `RetryableError` consults the
`Temporary()` marker first — when present, its value alone decides and a
true `Timeout()` marker is ignored — falling back to the `Timeout()`
marker only when `Temporary()` is absent; errors exposing neither marker,
and nil errors, are non-retryable. -/
theorem retry_predicate_modes (k j : Nat) (strategy : Nat → Nat) (hasOnRetry : Bool)
    (task : Nat → Option GoError) (err : Nat → GoError) (p : GoError → Bool)
    (doneBefore cancelWins : Nat → Bool) :
    (1 ≤ k → (∀ i, task i = some (err i)) →
      (executeSync k strategy hasOnRetry task (fun _ => false) (fun _ => false)).calls = k) ∧
    executeSyncWithPredicate k strategy hasOnRetry none task doneBefore cancelWins
        = retryLoop k strategy hasOnRetry (some (fun e => retryableError (some e)))
            task doneBefore cancelWins ∧
    (j < k → (∀ i, i < j → task i = some (err i)) → (∀ i, i < j → p (err i) = true) →
      ∀ e, task j = some e → p e = false →
        (executeSyncWithPredicate k strategy hasOnRetry (some p) task (fun _ => false)
            (fun _ => false)).calls = j + 1 ∧
        (executeSyncWithPredicate k strategy hasOnRetry (some p) task (fun _ => false)
            (fun _ => false)).result = Outcome.failed e) ∧
    (∀ g : GoError, retryableError (some g) = true ↔
      (g.temporary = some true ∨ (g.temporary = none ∧ g.timeout = some true))) ∧
    retryableError none = false := by
  refine ⟨?_, rfl, ?_, ?_, rfl⟩
  · intro hk htask
    have h := retryLoopAux_allFail k strategy hasOnRetry task err htask k 0 none hk (by omega)
    unfold executeSync retryLoop
    rw [h]
  · intro hjk hfail happr e he hrej
    have h := retryLoopAux_rejectAt k strategy hasOnRetry (some p) task err
      j k 0 none hjk (by omega)
      (fun i hi => by simpa using hfail i hi)
      (fun i hi => by
        simp only [Option.elim, Nat.zero_add, happr i hi]
        rfl)
      e (by simpa using he)
      (by simp [Option.elim, hrej])
    unfold executeSyncWithPredicate retryLoop
    simp only [Option.getD]
    exact ⟨h.1, h.2⟩
  · intro g
    rcases g with ⟨t, o⟩
    cases t with
    | none =>
      cases o with
      | none => simp [retryableError]
      | some b => cases b <;> simp [retryableError]
    | some b => cases b <;> simp [retryableError]

theorem retry_predicate_modes_witness :
    (executeSync 3 (fun _ => 0) false
        (fun i => some (if i = 0 then GoError.mk (some true) none
          else GoError.mk (some false) none))
        (fun _ => false) (fun _ => false)).calls = 3 ∧
    (executeSyncWithPredicate 3 (fun _ => 0) false
        (some (fun g => g.temporary == some true))
        (fun i => some (if i = 0 then GoError.mk (some true) none
          else GoError.mk (some false) none))
        (fun _ => false) (fun _ => false)).calls = 1 + 1 ∧
    (executeSyncWithPredicate 3 (fun _ => 0) false
        (some (fun g => g.temporary == some true))
        (fun i => some (if i = 0 then GoError.mk (some true) none
          else GoError.mk (some false) none))
        (fun _ => false) (fun _ => false)).result
        = Outcome.failed (GoError.mk (some false) none) ∧
    retryableError (some (GoError.mk none (some true))) = true ∧
    retryableError none = false := by
  have h := retry_predicate_modes 3 1 (fun _ => 0) false
    (fun i => some (if i = 0 then GoError.mk (some true) none
      else GoError.mk (some false) none))
    (fun i => if i = 0 then GoError.mk (some true) none else GoError.mk (some false) none)
    (fun g => g.temporary == some true) (fun _ => false) (fun _ => false)
  have hrej := h.2.2.1 (by decide) (fun i hi => rfl) (by decide)
    (GoError.mk (some false) none) rfl (by decide)
  exact ⟨h.1 (by decide) (fun i => rfl), hrej.1, hrej.2,
    (h.2.2.2.1 (GoError.mk none (some true))).mpr (Or.inr ⟨rfl, rfl⟩), h.2.2.2.2⟩

/-- C9 (counterexample): with `initialDelay = 100 > 0` but `maxDelay = 0`,
the capped delay is 0 and attempt 1 still reaches the modulo-by-zero fault,
so a positive initial delay alone does not make the fault branch
unreachable. -/
theorem exponentialBackoff_positive_delay_fault_counterexample :
    exponentialBackoff 100 1 0 0 1 = none := by
  norm_num [exponentialBackoff, expDelay, expRawDelay]

/-- C9 (amended): for every attempt `n ≥ 1` the jitter is a random value
taken modulo the capped pre-jitter delay, so the strategy faults with an
integer division/modulo by zero exactly when that delay is 0: with
`initialDelay = 0` every attempt `n ≥ 1` faults; a positive initial delay
does not by itself make the fault branch unreachable (a multiplier below 1
can truncate the delay to 0 nanoseconds, and `maxDelay = 0` caps it to 0),
but whenever `initialDelay ≥ 1`, `multiplier ≥ 1` and `maxDelay ≥ 1` the
fault branch is unreachable and the strategy always returns a value. -/
theorem exponentialBackoff_fault_conditions (d cap n randVal : Nat) (m : ℚ) :
    (1 ≤ n → exponentialBackoff 0 m cap randVal n = none) ∧
    (1 ≤ n → (exponentialBackoff d m cap randVal n = none ↔ expDelay d m cap n = 0)) ∧
    (1 ≤ d → 1 ≤ m → 1 ≤ cap → ∃ v, exponentialBackoff d m cap randVal n = some v) := by
  refine ⟨?_, ?_, ?_⟩
  · intro hn
    have hne : ¬ (n = 0) := by omega
    have h0 : expDelay 0 m cap n = 0 := by
      simp [expDelay, expRawDelay]
    simp [exponentialBackoff, hne, h0]
  · intro hn
    have hne : ¬ (n = 0) := by omega
    simp only [exponentialBackoff, hne, if_false]
    split_ifs with h
    · simp [h]
    · simp [h]
  · intro hd hm hcap
    rcases Nat.eq_zero_or_pos n with hn | hn
    · subst hn
      exact ⟨0, rfl⟩
    · have hraw : (1:ℚ) ≤ expRawDelay d m n := by
        unfold expRawDelay
        have h1 : (1:ℚ) ≤ (d:ℚ) := by exact_mod_cast hd
        have h2 : (1:ℚ) ≤ m ^ (n - 1) := one_le_pow₀ hm
        calc (1:ℚ) = 1 * 1 := by norm_num
          _ ≤ (d:ℚ) * m ^ (n - 1) := mul_le_mul h1 h2 (by norm_num) (by positivity)
      have hfl : (1:ℤ) ≤ ⌊expRawDelay d m n⌋ := by
        rw [Int.le_floor]
        exact_mod_cast hraw
      have hD : 1 ≤ expDelay d m cap n := by
        simp only [expDelay]
        split
        · omega
        · omega
      refine ⟨expDelay d m cap n / 2 + (randVal % expDelay d m cap n) / 2, ?_⟩
      simp only [exponentialBackoff]
      rw [if_neg (by omega), if_neg (by omega)]

theorem exponentialBackoff_fault_conditions_witness :
    exponentialBackoff 0 2 50 9 4 = none ∧
    (∃ v, exponentialBackoff 3 2 50 9 4 = some v) :=
  ⟨(exponentialBackoff_fault_conditions 0 50 4 9 2).1 (by decide),
   (exponentialBackoff_fault_conditions 3 50 4 9 2).2.2 (by decide)
     (by norm_num) (by decide)⟩
